import Mathlib

/-!
Verification of the display-list rendering and hit-testing core of the
Naglfar browser (`src/window.rs`).

The file is a shallow embedding of `window.rs` into Lean:

* geometry (`Au`, `Rect`) and the display-command type come from the
  `layout`/`painter` modules, which are not part of the rendering source
  file; they are modelled from the specification's data-model section;
* `render_item` embeds `fn render_item`;
* `renderPass` embeds the `connect_draw` closure of
  `RenderingWindow::new` (resize check on `items[0]`, vertical culling
  loop, dispatch);
* `onMotion` embeds the `motion-notify-event` handler, `pressLoop` the
  `for`/`break` loop of the `button-press-event` handler.

Drawing is represented by a trace of draw-primitive invocations
(`DrawCall`), the `ANKERS` thread-local hash map by an association list
in insertion order, and GTK signals (resize, cursor, navigation,
repaint) by explicit return values.
-/

namespace Naglfar

/-- Modelled from the spec (the `layout` module is not in the rendering
source): a length is a signed sub-pixel coordinate, held as an integer
count of app units at 60 units per pixel, convertible to whole pixels by
a truncating (`to_px`) and a ceiling (`ceil_to_px`) variant and exactly
to fractional pixels (`to_f64_px`, modelled as an exact rational). -/
structure Au where
  units : Int
deriving DecidableEq, Repr

/-- Truncating pixel conversion (Rust integer division truncates toward
zero). -/
def Au.to_px (a : Au) : Int :=
  Int.tdiv a.units 60

/-- Ceiling pixel conversion: the least integer number of pixels not
below the length. -/
def Au.ceil_to_px (a : Au) : Int :=
  Int.fdiv (a.units + 59) 60

/-- Exact fractional-pixel value of a length (the floating-point
conversion idealised as the rational it approximates). -/
def Au.to_f64_px (a : Au) : ℚ :=
  Rat.divInt a.units 60

/-- Modelled from the spec: a rectangle `(x, y, width, height)` in
sub-pixel units; equality is by exact coordinate value. -/
structure Rect where
  x : Au
  y : Au
  width : Au
  height : Au
deriving DecidableEq, Repr

/-- Modelled from the spec: four 8-bit colour channels. -/
structure Color where
  r : Nat
  g : Nat
  b : Nat
  a : Nat
deriving DecidableEq, Repr

/-- Modelled from the spec: a font descriptor carries a size, a slant
and a weight; slant and weight are opaque enum codes here. -/
structure Font where
  size : Au
  slant : Nat
  weight : Nat
deriving DecidableEq, Repr

/-- Modelled from the spec (the `painter` module is not in the rendering
source): one display command. A decoded image handle is opaque and
represented by a number. -/
inductive DisplayCommand where
  | SolidColor (color : Color) (rect : Rect)
  | Image (pixbuf : Nat) (rect : Rect)
  | Text (text : String) (rect : Rect) (color : Color) (font : Font)
  | Anker (url : String) (rect : Rect)
deriving DecidableEq, Repr

/-- The rectangle carried by a display command (the `rect` bound by the
four-pattern match at the top of the culling loop). -/
def DisplayCommand.rect : DisplayCommand → Rect
  | .SolidColor _ r => r
  | .Image _ r => r
  | .Text _ r _ _ => r
  | .Anker _ r => r

/-- One invocation of a drawing primitive, as issued by `render_item`:
`fill` for the SolidColor arm, `image` for the Image arm (scaled paint at
the rectangle origin), `text` for the Text arm. The Anker arm issues no
drawing primitive. -/
inductive DrawCall where
  | fill (color : Color) (rect : Rect)
  | image (pixbuf : Nat) (rect : Rect)
  | text (text : String) (rect : Rect) (color : Color) (font : Font)
deriving DecidableEq, Repr

/-- The `ANKERS` table: `HashMap<Rect, String>` modelled as an
association list whose iteration order is insertion order. -/
abbrev AnkerMap : Type := List (Rect × String)

/-- `HashMap` lookup by exact rectangle value. -/
def lookupAnker (m : AnkerMap) (r : Rect) : Option String :=
  (m.find? (fun e => decide (e.1 = r))).map (fun e => e.2)

/-- The effect of `ankers.entry(rect).or_insert_with(|| url)`: insert
only when no entry for that exact rectangle exists. -/
def insertIfAbsent (m : AnkerMap) (r : Rect) (url : String) : AnkerMap :=
  if (lookupAnker m r).isSome then m else m ++ [(r, url)]

/-- Embedding of `fn render_item`: the draw-primitive invocations it
issues and the `ANKERS` table it leaves behind. -/
def render_item (cmd : DisplayCommand) (m : AnkerMap) :
    List DrawCall × AnkerMap :=
  match cmd with
  | .SolidColor color rect => ([.fill color rect], m)
  | .Image pixbuf rect => ([.image pixbuf rect], m)
  | .Text text rect color font => ([.text text rect color font], m)
  | .Anker url rect => ([], insertIfAbsent m rect url)

/-- The culling test of the `connect_draw` loop: with `rect_y` and
`rect_height` in truncated pixels, `max`/`min` against the redraw
interval and a strictly positive overlap. -/
def intersectsRedraw (rect : Rect) (startY endY : Int) : Bool :=
  let rectY := rect.y.to_px
  let rectHeight := rect.height.to_px
  let sy := max rectY startY
  let ey := min (rectY + rectHeight) endY
  decide (ey - sy > 0)

/-- The widget state the `connect_draw` closure reads and writes: the
`ANKERS` table and the drawing area's requested height
(`get_size_request().1` / `set_size_request`). -/
structure RenderState where
  ankers : AnkerMap
  sizeRequest : Int
deriving DecidableEq, Repr

/-- Everything one paint pass emits: resize requests issued through
`set_size_request`, draw-primitive invocations tagged with the index of
the display-list command issuing them, and the final widget state. -/
structure RenderOutput where
  resizes : List Int
  draws : List (Nat × DrawCall)
  state : RenderState
deriving DecidableEq, Repr

/-- The culling loop of the `connect_draw` closure over the indexed
display list: a culled command is skipped entirely, a surviving command
is dispatched through `render_item`. -/
def renderLoop (startY endY : Int) :
    List (Nat × DisplayCommand) → AnkerMap → List (Nat × DrawCall) × AnkerMap
  | [], m => ([], m)
  | (i, cmd) :: rest, m =>
    if intersectsRedraw cmd.rect startY endY then
      let step := render_item cmd m
      let tail := renderLoop startY endY rest step.2
      (step.1.map (fun c => (i, c)) ++ tail.1, tail.2)
    else
      renderLoop startY endY rest m

/-- Embedding of the `connect_draw` closure: `items[0]` is inspected for
the resize check — on an empty display list this indexing panics, which
the model reports as `none` — then every command runs through the
culling loop in list order. -/
def renderPass (items : List DisplayCommand) (startY endY : Int)
    (s : RenderState) : Option RenderOutput :=
  match items with
  | [] => none
  | first :: _ =>
    let sized : List Int × Int :=
      match first with
      | .SolidColor _ rect =>
        if s.sizeRequest ≠ rect.height.ceil_to_px then
          ([rect.height.ceil_to_px], rect.height.ceil_to_px)
        else
          ([], s.sizeRequest)
      | _ => ([], s.sizeRequest)
    let looped := renderLoop startY endY items.enum s.ankers
    some ⟨sized.1, looped.1, ⟨looped.2, sized.2⟩⟩

/-- The containment test shared by both pointer handlers: inclusive on
all four bounds, in fractional pixels. -/
def containsPoint (rect : Rect) (px py : ℚ) : Bool :=
  decide (rect.x.to_f64_px ≤ px) &&
    decide (px ≤ rect.x.to_f64_px + rect.width.to_f64_px) &&
    decide (rect.y.to_f64_px ≤ py) &&
    decide (py ≤ rect.y.to_f64_px + rect.height.to_f64_px)

/-- The two cursor shapes the motion handler can request. -/
inductive CursorShape where
  | hand1
  | leftPtr
deriving DecidableEq, Repr

/-- Embedding of the `motion-notify-event` handler: the hand cursor when
any anchor rectangle contains the pointer, the arrow otherwise. -/
def onMotion (ankers : AnkerMap) (x y : ℚ) : CursorShape :=
  if ankers.any (fun e => containsPoint e.1 x y) then .hand1 else .leftPtr

/-- Embedding of the `for`/`break` loop of the `button-press-event`
handler: the navigation requests emitted
(`update_html_tree_and_stylesheet`) and the number of repaint requests
(`queue_draw`); the scan stops at the first containing rectangle. -/
def pressLoop : AnkerMap → ℚ → ℚ → List String × Nat
  | [], _, _ => ([], 0)
  | (rect, url) :: rest, x, y =>
    if containsPoint rect x y then ([url], 1) else pressLoop rest x y

/-! Specification-side definitions: independent restatements of the two
side effects of a paint pass, used to characterise `renderPass`. -/

/-- The draw primitive a command invokes when dispatched, if any: the
Anker arm of `render_item` invokes none. -/
def drawCallOf : DisplayCommand → Option DrawCall
  | .SolidColor color rect => some (.fill color rect)
  | .Image pixbuf rect => some (.image pixbuf rect)
  | .Text text rect color font => some (.text text rect color font)
  | .Anker _ _ => none

/-- Whether a command is a drawing command (SolidColor, Image or Text),
as opposed to an Anker command, which is not drawn. -/
def DisplayCommand.isDrawing : DisplayCommand → Bool
  | .Anker _ _ => false
  | .SolidColor _ _ => true
  | .Image _ _ => true
  | .Text _ _ _ _ => true

/-- The draw-primitive invocations of a pass: every indexed command
surviving the cull contributes its one draw call, in list order. -/
def drawsOf (startY endY : Int) (l : List (Nat × DisplayCommand)) :
    List (Nat × DrawCall) :=
  l.filterMap (fun p =>
    if intersectsRedraw p.2.rect startY endY then
      (drawCallOf p.2).map (fun c => (p.1, c))
    else
      none)

/-- The `ANKERS` effect of one command: an Anker command surviving the
cull inserts first-writer-wins; every other command, and a culled Anker
command, leaves the table unchanged. -/
def ankerStep (startY endY : Int) (m : AnkerMap) : DisplayCommand → AnkerMap
  | .Anker url rect =>
    if intersectsRedraw rect startY endY then insertIfAbsent m rect url else m
  | _ => m

/-- The `ANKERS` effect of a whole pass, folded in list order. -/
def ankerInserts (startY endY : Int) (items : List DisplayCommand)
    (m : AnkerMap) : AnkerMap :=
  items.foldl (ankerStep startY endY) m

/-! Helper lemmas relating the renderer to the two characterisations. -/

theorem render_item_fst (cmd : DisplayCommand) (m : AnkerMap) :
    (render_item cmd m).1 = (drawCallOf cmd).toList := by
  cases cmd <;> rfl

theorem render_item_snd {startY endY : Int} (cmd : DisplayCommand) (m : AnkerMap)
    (hc : intersectsRedraw cmd.rect startY endY = true) :
    (render_item cmd m).2 = ankerStep startY endY m cmd := by
  cases cmd <;> simp_all [render_item, ankerStep, DisplayCommand.rect]

theorem ankerStep_of_culled {startY endY : Int} (cmd : DisplayCommand) (m : AnkerMap)
    (hc : intersectsRedraw cmd.rect startY endY = false) :
    ankerStep startY endY m cmd = m := by
  cases cmd <;> simp_all [ankerStep, DisplayCommand.rect]

theorem renderLoop_fst (startY endY : Int) (l : List (Nat × DisplayCommand)) :
    ∀ m : AnkerMap, (renderLoop startY endY l m).1 = drawsOf startY endY l := by
  induction l with
  | nil => intro m; rfl
  | cons p rest ih =>
    intro m
    obtain ⟨i, cmd⟩ := p
    by_cases hc : intersectsRedraw cmd.rect startY endY = true
    · simp [renderLoop, drawsOf, List.filterMap_cons, hc, ih,
        render_item_fst]
      cases cmd <;> simp [drawCallOf, drawsOf]
    · simp only [Bool.not_eq_true] at hc
      simp [renderLoop, drawsOf, List.filterMap_cons, hc, ih]

theorem renderLoop_snd (startY endY : Int) (l : List (Nat × DisplayCommand)) :
    ∀ m : AnkerMap,
      (renderLoop startY endY l m).2 =
        ankerInserts startY endY (l.map Prod.snd) m := by
  induction l with
  | nil => intro m; rfl
  | cons p rest ih =>
    intro m
    obtain ⟨i, cmd⟩ := p
    by_cases hc : intersectsRedraw cmd.rect startY endY = true
    · simp [renderLoop, hc, ih, ankerInserts, render_item_snd cmd m hc]
    · simp only [Bool.not_eq_true] at hc
      simp [renderLoop, hc, ih, ankerInserts, ankerStep_of_culled cmd m hc]

theorem renderPass_some_draws {items : List DisplayCommand} {startY endY : Int}
    {s : RenderState} {out : RenderOutput}
    (h : renderPass items startY endY s = some out) :
    out.draws = drawsOf startY endY items.enum := by
  match items with
  | [] => simp [renderPass] at h
  | first :: rest =>
    simp only [renderPass, Option.some.injEq] at h
    subst h
    exact renderLoop_fst startY endY _ s.ankers

theorem renderPass_some_ankers {items : List DisplayCommand} {startY endY : Int}
    {s : RenderState} {out : RenderOutput}
    (h : renderPass items startY endY s = some out) :
    out.state.ankers = ankerInserts startY endY items s.ankers := by
  match items with
  | [] => simp [renderPass] at h
  | first :: rest =>
    simp only [renderPass, Option.some.injEq] at h
    subst h
    simpa [List.enum_map_snd] using renderLoop_snd startY endY (first :: rest).enum s.ankers

theorem renderPass_some_resizes {items : List DisplayCommand} {startY endY : Int}
    {s : RenderState} {out : RenderOutput} {color : Color} {rect : Rect}
    (h : renderPass items startY endY s = some out)
    (hhead : items.head? = some (.SolidColor color rect)) :
    out.resizes =
      if s.sizeRequest ≠ rect.height.ceil_to_px then [rect.height.ceil_to_px]
      else [] := by
  match items with
  | [] => simp [renderPass] at h
  | first :: rest =>
    simp only [List.head?_cons, Option.some.injEq] at hhead
    subst hhead
    simp only [renderPass, Option.some.injEq] at h
    subst h
    by_cases hs : s.sizeRequest = rect.height.ceil_to_px <;> simp [hs]

theorem renderPass_cons_isSome (first : DisplayCommand)
    (rest : List DisplayCommand) (startY endY : Int) (s : RenderState) :
    (renderPass (first :: rest) startY endY s).isSome = true := by
  cases first <;> simp [renderPass]

/-! Helper lemmas on the association-list model of the `ANKERS` map. -/

theorem lookupAnker_append_of_none {m : AnkerMap} {r : Rect}
    (t : AnkerMap) (h : lookupAnker m r = none) :
    lookupAnker (m ++ t) r = lookupAnker t r := by
  have hm : List.find? (fun e => decide (e.1 = r)) m = none := by
    simpa [lookupAnker] using h
  simp [lookupAnker, List.find?_append, hm]

theorem lookupAnker_append_of_some {m : AnkerMap} {r : Rect} {u : String}
    (t : AnkerMap) (h : lookupAnker m r = some u) :
    lookupAnker (m ++ t) r = some u := by
  unfold lookupAnker at h ⊢
  cases hf : List.find? (fun e => decide (e.1 = r)) m with
  | none => rw [hf] at h; simp at h
  | some e =>
    rw [hf] at h
    rw [List.find?_append, hf]
    simpa using h

theorem lookupAnker_singleton_self (r : Rect) (u : String) :
    lookupAnker [(r, u)] r = some u := by
  simp [lookupAnker, List.find?]

theorem insertIfAbsent_of_isSome {m : AnkerMap} {r : Rect} (u : String)
    (h : (lookupAnker m r).isSome = true) :
    insertIfAbsent m r u = m := by
  simp [insertIfAbsent, h]

theorem insertIfAbsent_of_none {m : AnkerMap} {r : Rect} (u : String)
    (h : lookupAnker m r = none) :
    insertIfAbsent m r u = m ++ [(r, u)] := by
  simp [insertIfAbsent, h]

theorem lookupAnker_insertIfAbsent_isSome (m : AnkerMap) (r : Rect) (u : String) :
    (lookupAnker (insertIfAbsent m r u) r).isSome = true := by
  cases h : lookupAnker m r with
  | none =>
    rw [insertIfAbsent_of_none u h, lookupAnker_append_of_none _ h,
      lookupAnker_singleton_self]
    rfl
  | some v =>
    rw [insertIfAbsent_of_isSome u (by simp [h])]
    simp [h]

theorem insertIfAbsent_append (m : AnkerMap) (r : Rect) (u : String) :
    ∃ t, insertIfAbsent m r u = m ++ t := by
  cases h : (lookupAnker m r).isSome with
  | true => exact ⟨[], by simp [insertIfAbsent_of_isSome u h]⟩
  | false =>
    have hnone : lookupAnker m r = none := by
      cases hmr : lookupAnker m r with
      | none => rfl
      | some v => rw [hmr] at h; simp at h
    exact ⟨[(r, u)], insertIfAbsent_of_none u hnone⟩

theorem ankerStep_append {startY endY : Int} (m : AnkerMap)
    (cmd : DisplayCommand) : ∃ t, ankerStep startY endY m cmd = m ++ t := by
  cases cmd with
  | Anker url rect =>
    by_cases hc : intersectsRedraw rect startY endY = true
    · simpa [ankerStep, hc] using insertIfAbsent_append m rect url
    · simp only [Bool.not_eq_true] at hc
      exact ⟨[], by simp [ankerStep, hc]⟩
  | SolidColor color rect => exact ⟨[], by simp [ankerStep]⟩
  | Image pixbuf rect => exact ⟨[], by simp [ankerStep]⟩
  | Text text rect color font => exact ⟨[], by simp [ankerStep]⟩

theorem ankerInserts_append (startY endY : Int) (items : List DisplayCommand) :
    ∀ m : AnkerMap, ∃ t, ankerInserts startY endY items m = m ++ t := by
  induction items with
  | nil => exact fun m => ⟨[], by simp [ankerInserts]⟩
  | cons cmd rest ih =>
    intro m
    obtain ⟨t₁, h₁⟩ := @ankerStep_append startY endY m cmd
    obtain ⟨t₂, h₂⟩ := ih (ankerStep startY endY m cmd)
    exact ⟨t₁ ++ t₂, by simp [ankerInserts, List.foldl_cons] at h₂ ⊢; rw [h₂, h₁, List.append_assoc]⟩

theorem lookupAnker_ankerInserts_of_some {startY endY : Int}
    {items : List DisplayCommand} {m : AnkerMap} {r : Rect} {u : String}
    (h : lookupAnker m r = some u) :
    lookupAnker (ankerInserts startY endY items m) r = some u := by
  obtain ⟨t, ht⟩ := ankerInserts_append startY endY items m
  rw [ht]
  exact lookupAnker_append_of_some t h

theorem lookupAnker_ankerInserts_isSome {startY endY : Int}
    {items : List DisplayCommand} {m : AnkerMap} {r : Rect}
    (h : (lookupAnker m r).isSome = true) :
    (lookupAnker (ankerInserts startY endY items m) r).isSome = true := by
  obtain ⟨u, hu⟩ := Option.isSome_iff_exists.mp h
  simp [lookupAnker_ankerInserts_of_some hu]

theorem ankerInserts_idem (startY endY : Int) (items : List DisplayCommand) :
    ∀ m : AnkerMap,
      ankerInserts startY endY items (ankerInserts startY endY items m) =
        ankerInserts startY endY items m := by
  induction items with
  | nil => intro m; rfl
  | cons cmd rest ih =>
    intro m
    have hstep : ankerStep startY endY
        (ankerInserts startY endY rest (ankerStep startY endY m cmd)) cmd =
        ankerInserts startY endY rest (ankerStep startY endY m cmd) := by
      cases cmd with
      | Anker url rect =>
        by_cases hc : intersectsRedraw rect startY endY = true
        · have hkey : (lookupAnker (insertIfAbsent m rect url) rect).isSome = true :=
            lookupAnker_insertIfAbsent_isSome m rect url
          have hkey2 := @lookupAnker_ankerInserts_isSome startY endY rest _ _ hkey
          simp [ankerStep, hc, insertIfAbsent_of_isSome url hkey2]
        · simp only [Bool.not_eq_true] at hc
          simp [ankerStep, hc]
      | SolidColor color rect => simp [ankerStep]
      | Image pixbuf rect => simp [ankerStep]
      | Text text rect color font => simp [ankerStep]
    calc ankerInserts startY endY (cmd :: rest)
          (ankerInserts startY endY (cmd :: rest) m)
        = ankerInserts startY endY rest
            (ankerStep startY endY
              (ankerInserts startY endY rest (ankerStep startY endY m cmd)) cmd) := rfl
      _ = ankerInserts startY endY rest
            (ankerInserts startY endY rest (ankerStep startY endY m cmd)) := by rw [hstep]
      _ = ankerInserts startY endY rest (ankerStep startY endY m cmd) := ih _
      _ = ankerInserts startY endY (cmd :: rest) m := rfl

/-! Helper lemmas for counting the draw invocations of one command. -/

theorem drawsOf_cons (startY endY : Int) (i : Nat) (cmd : DisplayCommand)
    (l : List (Nat × DisplayCommand)) :
    drawsOf startY endY ((i, cmd) :: l) =
      (if intersectsRedraw cmd.rect startY endY then
        (drawCallOf cmd).map (fun c => (i, c))
      else none).toList ++ drawsOf startY endY l := by
  simp only [drawsOf, List.filterMap_cons]
  cases h : (if intersectsRedraw cmd.rect startY endY then
      (drawCallOf cmd).map (fun c => (i, c)) else none) <;> simp [h]

theorem drawsOf_enumFrom_le (startY endY : Int) (t : List DisplayCommand)
    (k : Nat) (d : Nat × DrawCall)
    (hd : d ∈ drawsOf startY endY (List.enumFrom k t)) : k ≤ d.1 := by
  simp only [drawsOf, List.mem_filterMap] at hd
  obtain ⟨⟨j, cmd⟩, hmem, hstep⟩ := hd
  have hj := (List.mem_enumFrom hmem).1
  by_cases hc : intersectsRedraw cmd.rect startY endY = true
  · rw [if_pos hc] at hstep
    cases hcall : drawCallOf cmd with
    | none => rw [hcall] at hstep; simp at hstep
    | some c =>
      rw [hcall] at hstep
      injection hstep with h
      rw [← h]
      exact hj
  · simp only [Bool.not_eq_true] at hc
    rw [if_neg (by simp [hc])] at hstep
    simp at hstep

theorem drawsOf_filter_index (startY endY : Int) (l : List DisplayCommand) :
    ∀ (n i : Nat) (cmd : DisplayCommand), l[i]? = some cmd →
      (drawsOf startY endY (List.enumFrom n l)).filter
          (fun d => decide (d.1 = n + i)) =
        if intersectsRedraw cmd.rect startY endY then
          ((drawCallOf cmd).map (fun c => (n + i, c))).toList
        else [] := by
  induction l with
  | nil => intro n i cmd hget; simp at hget
  | cons a t ih =>
    intro n i cmd hget
    rw [List.enumFrom_cons, drawsOf_cons, List.filter_append]
    have htail_le : ∀ d ∈ drawsOf startY endY (List.enumFrom (n + 1) t),
        n + 1 ≤ d.1 := fun d hd => drawsOf_enumFrom_le startY endY t (n + 1) d hd
    cases i with
    | zero =>
      have hcmd : cmd = a := by simpa using hget.symm
      subst hcmd
      have htail : (drawsOf startY endY (List.enumFrom (n + 1) t)).filter
          (fun d => decide (d.1 = n + 0)) = [] := by
        rw [List.filter_eq_nil_iff]
        intro d hd
        have := htail_le d hd
        simp only [decide_eq_true_eq]
        omega
      rw [htail, List.append_nil]
      by_cases hc : intersectsRedraw cmd.rect startY endY = true
      · rw [if_pos hc, if_pos hc]
        cases hcall : drawCallOf cmd <;> simp [hcall]
      · simp only [Bool.not_eq_true] at hc
        rw [if_neg (by simp [hc]), if_neg (by simp [hc])]
        simp
    | succ j =>
      rw [List.getElem?_cons_succ] at hget
      have hhead : ((if intersectsRedraw a.rect startY endY then
          (drawCallOf a).map (fun c => (n, c)) else none).toList).filter
            (fun d => decide (d.1 = n + (j + 1))) = [] := by
        rw [List.filter_eq_nil_iff]
        intro d hd
        by_cases hc : intersectsRedraw a.rect startY endY = true
        · rw [if_pos hc] at hd
          cases hcall : drawCallOf a with
          | none => rw [hcall] at hd; simp at hd
          | some c =>
            rw [hcall] at hd
            have hd1 : d = (n, c) := by simpa using hd
            subst hd1
            simp only [decide_eq_true_eq]
            omega
        · simp only [Bool.not_eq_true] at hc
          rw [if_neg (by simp [hc])] at hd
          simp at hd
      rw [hhead, List.nil_append]
      have harith : n + (j + 1) = (n + 1) + j := by omega
      simp only [harith]
      exact ih (n + 1) j cmd hget

theorem isDrawing_drawCallOf {cmd : DisplayCommand}
    (h : cmd.isDrawing = true) : (drawCallOf cmd).isSome = true := by
  cases cmd <;> simp_all [DisplayCommand.isDrawing, drawCallOf]

/-! Helper lemmas for the pointer controller. -/

theorem pressLoop_eq_find (x y : ℚ) :
    ∀ ankers : AnkerMap,
      pressLoop ankers x y =
        match ankers.find? (fun e => containsPoint e.1 x y) with
        | some e => ([e.2], 1)
        | none => ([], 0) := by
  intro ankers
  induction ankers with
  | nil => rfl
  | cons e rest ih =>
    obtain ⟨rect, url⟩ := e
    by_cases hc : containsPoint rect x y = true
    · simp [pressLoop, List.find?_cons, hc]
    · simp only [Bool.not_eq_true] at hc
      simp [pressLoop, List.find?_cons, hc, ih]

theorem onMotion_hand_iff_any (ankers : AnkerMap) (x y : ℚ) :
    onMotion ankers x y = CursorShape.hand1 ↔
      ankers.any (fun e => containsPoint e.1 x y) = true := by
  by_cases h : ankers.any (fun e => containsPoint e.1 x y) = true
  · simp [onMotion, h]
  · simp only [Bool.not_eq_true] at h
    simp [onMotion, h]

/-! Claim theorems. -/

/-- C1 counterexample: an Anchor command whose vertical span `[100, 110)`
misses the redraw region `[0, 50)` is culled, and — contrary to the claim
that a culled Anchor still inserts its rect-to-url entry — the paint pass
leaves the Anchor Index empty. -/
theorem culled_anker_skips_index_insert :
    intersectsRedraw ⟨⟨0⟩, ⟨6000⟩, ⟨600⟩, ⟨600⟩⟩ 0 50 = false ∧
    (renderPass [.Anker "u" ⟨⟨0⟩, ⟨6000⟩, ⟨600⟩, ⟨600⟩⟩] 0 50 ⟨[], 520⟩).map
        (fun o => o.state.ankers) = some [] :=
  ⟨rfl, rfl⟩

/-- C1 (amended): the index-insert side effect of an Anchor command is
subject to exactly the same vertical culling as the draw call of a
drawing command — a paint pass updates the Anchor Index precisely by
folding the first-writer-wins insert over the Anchor commands whose span
intersects the redraw region, in list order (`ankerInserts`); a culled
Anchor command inserts nothing. -/
theorem anker_index_inserts_follow_culling (items : List DisplayCommand)
    (startY endY : Int) (s : RenderState) (out : RenderOutput)
    (h : renderPass items startY endY s = some out) :
    out.state.ankers = ankerInserts startY endY items s.ankers :=
  renderPass_some_ankers h

/-- C1 witness: a pass over one culled and one visible Anchor command,
starting from an empty index, indexes exactly the visible one. -/
theorem anker_index_inserts_follow_culling_witness :
    renderPass
        [.Anker "a" ⟨⟨0⟩, ⟨6000⟩, ⟨600⟩, ⟨600⟩⟩,
          .Anker "b" ⟨⟨0⟩, ⟨0⟩, ⟨600⟩, ⟨600⟩⟩] 0 50 ⟨[], 520⟩ =
      some ⟨[], [], ⟨[(⟨⟨0⟩, ⟨0⟩, ⟨600⟩, ⟨600⟩⟩, "b")], 520⟩⟩ ∧
    (⟨[], [], ⟨[(⟨⟨0⟩, ⟨0⟩, ⟨600⟩, ⟨600⟩⟩, "b")], 520⟩⟩ :
        RenderOutput).state.ankers =
      ankerInserts 0 50
        [.Anker "a" ⟨⟨0⟩, ⟨6000⟩, ⟨600⟩, ⟨600⟩⟩,
          .Anker "b" ⟨⟨0⟩, ⟨0⟩, ⟨600⟩, ⟨600⟩⟩] [] :=
  ⟨rfl,
    anker_index_inserts_follow_culling
      [.Anker "a" ⟨⟨0⟩, ⟨6000⟩, ⟨600⟩, ⟨600⟩⟩,
        .Anker "b" ⟨⟨0⟩, ⟨0⟩, ⟨600⟩, ⟨600⟩⟩] 0 50 ⟨[], 520⟩
      ⟨[], [], ⟨[(⟨⟨0⟩, ⟨0⟩, ⟨600⟩, ⟨600⟩⟩, "b")], 520⟩⟩ rfl⟩

/-- C2: on the empty display list the paint pass is not the no-op the
spec promises — the `connect_draw` closure evaluates `items[0]`
unconditionally, which panics on an empty vector, so the pass aborts (the
model returns `none`) for every redraw region and every widget state. -/
theorem renderPass_empty_list_aborts (startY endY : Int) (s : RenderState) :
    renderPass [] startY endY s = none :=
  rfl

/-- C3 counterexample: with a first command `SolidColor` of height 30
app units (half a pixel) and a current requested height of 1 pixel, the
current height differs from H (1 ≠ 1/2 px), yet the pass emits no resize
request, because the code compares against `ceil_to_px(H) = 1`, not H. -/
theorem resize_skipped_at_fractional_height :
    (1 : ℚ) ≠ (Au.mk 30).to_f64_px ∧
    (renderPass [.SolidColor ⟨255, 255, 255, 255⟩ ⟨⟨0⟩, ⟨0⟩, ⟨0⟩, ⟨30⟩⟩]
        0 100 ⟨[], 1⟩).map (fun o => o.resizes) = some [] :=
  ⟨by decide, rfl⟩

/-- C3 (amended): when the first command is `SolidColor` with rectangle
height H, the pass emits exactly one resize request of value
`ceil_to_px(H)` when the current requested height differs from
`ceil_to_px(H)`, and none when they are equal. -/
theorem resize_emitted_iff_ceil_differs (items : List DisplayCommand)
    (startY endY : Int) (s : RenderState) (out : RenderOutput)
    (color : Color) (rect : Rect)
    (h : renderPass items startY endY s = some out)
    (hhead : items.head? = some (.SolidColor color rect)) :
    out.resizes =
      if s.sizeRequest ≠ rect.height.ceil_to_px then [rect.height.ceil_to_px]
      else [] :=
  renderPass_some_resizes h hhead

/-- C3 witness: a 600-pixel-high background against a 520-pixel
requested height yields exactly the resize request 600. -/
theorem resize_emitted_iff_ceil_differs_witness :
    renderPass
        [.SolidColor ⟨255, 255, 255, 255⟩ ⟨⟨0⟩, ⟨0⟩, ⟨48000⟩, ⟨36000⟩⟩]
        0 600 ⟨[], 520⟩ =
      some ⟨[600],
        [(0, .fill ⟨255, 255, 255, 255⟩ ⟨⟨0⟩, ⟨0⟩, ⟨48000⟩, ⟨36000⟩⟩)],
        ⟨[], 600⟩⟩ ∧
    [DisplayCommand.SolidColor ⟨255, 255, 255, 255⟩
        ⟨⟨0⟩, ⟨0⟩, ⟨48000⟩, ⟨36000⟩⟩].head? =
      some (.SolidColor ⟨255, 255, 255, 255⟩ ⟨⟨0⟩, ⟨0⟩, ⟨48000⟩, ⟨36000⟩⟩) ∧
    (⟨[600],
        [(0, .fill ⟨255, 255, 255, 255⟩ ⟨⟨0⟩, ⟨0⟩, ⟨48000⟩, ⟨36000⟩⟩)],
        ⟨[], 600⟩⟩ : RenderOutput).resizes =
      if (520 : Int) ≠ (Au.mk 36000).ceil_to_px then [(Au.mk 36000).ceil_to_px]
      else [] :=
  ⟨rfl, rfl,
    resize_emitted_iff_ceil_differs
      [.SolidColor ⟨255, 255, 255, 255⟩ ⟨⟨0⟩, ⟨0⟩, ⟨48000⟩, ⟨36000⟩⟩]
      0 600 ⟨[], 520⟩
      ⟨[600],
        [(0, .fill ⟨255, 255, 255, 255⟩ ⟨⟨0⟩, ⟨0⟩, ⟨48000⟩, ⟨36000⟩⟩)],
        ⟨[], 600⟩⟩
      ⟨255, 255, 255, 255⟩ ⟨⟨0⟩, ⟨0⟩, ⟨48000⟩, ⟨36000⟩⟩ rfl rfl⟩

/-- C4: a drawing command (SolidColor, Image or Text — an Anchor command
has no draw primitive) at position `i` of the display list has its draw
primitive invoked exactly once when
`min(rect_y + rect_height, end_y) - max(rect_y, start_y) > 0` (with
`rect_y`, `rect_height` in truncated pixels) and never otherwise. -/
theorem draw_primitive_invoked_iff_span_intersects
    (items : List DisplayCommand) (startY endY : Int) (s : RenderState)
    (out : RenderOutput) (h : renderPass items startY endY s = some out)
    (i : Nat) (cmd : DisplayCommand) (hget : items[i]? = some cmd)
    (hdraw : cmd.isDrawing = true) :
    (out.draws.filter (fun d => decide (d.1 = i))).length =
      if min (cmd.rect.y.to_px + cmd.rect.height.to_px) endY -
          max cmd.rect.y.to_px startY > 0 then 1 else 0 := by
  rw [renderPass_some_draws h]
  have hkey := drawsOf_filter_index startY endY items 0 i cmd hget
  simp only [Nat.zero_add] at hkey
  rw [show items.enum = List.enumFrom 0 items from rfl, hkey]
  by_cases hc : intersectsRedraw cmd.rect startY endY = true
  · have harith : min (cmd.rect.y.to_px + cmd.rect.height.to_px) endY -
        max cmd.rect.y.to_px startY > 0 := by
      simpa [intersectsRedraw] using hc
    rw [if_pos hc, if_pos harith]
    obtain ⟨c, hc2⟩ := Option.isSome_iff_exists.mp (isDrawing_drawCallOf hdraw)
    simp [hc2]
  · simp only [Bool.not_eq_true] at hc
    have harith : ¬(min (cmd.rect.y.to_px + cmd.rect.height.to_px) endY -
        max cmd.rect.y.to_px startY > 0) := by
      simpa [intersectsRedraw] using hc
    rw [if_neg (by simp [hc]), if_neg harith]
    rfl

/-- C4 witness: a SolidColor background spanning `[0, 600)` against the
redraw region `[0, 600)` is drawn exactly once. -/
theorem draw_primitive_invoked_iff_span_intersects_witness :
    renderPass
        [.SolidColor ⟨255, 255, 255, 255⟩ ⟨⟨0⟩, ⟨0⟩, ⟨48000⟩, ⟨36000⟩⟩]
        0 600 ⟨[], 520⟩ =
      some ⟨[600],
        [(0, .fill ⟨255, 255, 255, 255⟩ ⟨⟨0⟩, ⟨0⟩, ⟨48000⟩, ⟨36000⟩⟩)],
        ⟨[], 600⟩⟩ ∧
    [DisplayCommand.SolidColor ⟨255, 255, 255, 255⟩
        ⟨⟨0⟩, ⟨0⟩, ⟨48000⟩, ⟨36000⟩⟩][0]? =
      some (.SolidColor ⟨255, 255, 255, 255⟩ ⟨⟨0⟩, ⟨0⟩, ⟨48000⟩, ⟨36000⟩⟩) ∧
    (DisplayCommand.SolidColor ⟨255, 255, 255, 255⟩
        ⟨⟨0⟩, ⟨0⟩, ⟨48000⟩, ⟨36000⟩⟩).isDrawing = true ∧
    (((⟨[600],
          [(0, .fill ⟨255, 255, 255, 255⟩ ⟨⟨0⟩, ⟨0⟩, ⟨48000⟩, ⟨36000⟩⟩)],
          ⟨[], 600⟩⟩ : RenderOutput).draws.filter
        (fun d => decide (d.1 = 0))).length =
      if min ((Au.mk 0).to_px + (Au.mk 36000).to_px) 600 -
          max (Au.mk 0).to_px 0 > 0 then 1 else 0) :=
  ⟨rfl, rfl, rfl,
    draw_primitive_invoked_iff_span_intersects
      [.SolidColor ⟨255, 255, 255, 255⟩ ⟨⟨0⟩, ⟨0⟩, ⟨48000⟩, ⟨36000⟩⟩]
      0 600 ⟨[], 520⟩
      ⟨[600],
        [(0, .fill ⟨255, 255, 255, 255⟩ ⟨⟨0⟩, ⟨0⟩, ⟨48000⟩, ⟨36000⟩⟩)],
        ⟨[], 600⟩⟩ rfl 0
      (.SolidColor ⟨255, 255, 255, 255⟩ ⟨⟨0⟩, ⟨0⟩, ⟨48000⟩, ⟨36000⟩⟩)
      rfl rfl⟩

/-- C5: Anchor Index insertion is first-writer-wins — for a rectangle
not yet in the index, inserting `(r, a)` and then `(r, b)` through the
Anker arm of `render_item` leaves the index mapping `r` to `a`, and the
second insert leaves the index completely unchanged (no error). -/
theorem anker_insert_first_writer_wins (m : AnkerMap) (r : Rect)
    (a b : String) (h : lookupAnker m r = none) :
    (render_item (.Anker b r) (render_item (.Anker a r) m).2).2 =
        (render_item (.Anker a r) m).2 ∧
    lookupAnker (render_item (.Anker b r) (render_item (.Anker a r) m).2).2
        r = some a := by
  have h1 : (render_item (.Anker a r) m).2 = m ++ [(r, a)] := by
    simp [render_item, insertIfAbsent_of_none a h]
  have h2 : lookupAnker (m ++ [(r, a)]) r = some a := by
    rw [lookupAnker_append_of_none _ h, lookupAnker_singleton_self]
  have h3 : (render_item (.Anker b r) (m ++ [(r, a)])).2 = m ++ [(r, a)] := by
    have hks : (lookupAnker (m ++ [(r, a)]) r).isSome = true := by
      rw [h2]
      rfl
    simp [render_item, insertIfAbsent_of_isSome b hks]
  rw [h1]
  exact ⟨h3, by rw [h3]; exact h2⟩

/-- C5 witness: inserting `(r, "a")` then `(r, "b")` into the empty
index leaves it mapping `r` to `"a"`. -/
theorem anker_insert_first_writer_wins_witness :
    lookupAnker [] ⟨⟨0⟩, ⟨0⟩, ⟨600⟩, ⟨600⟩⟩ = none ∧
    ((render_item (.Anker "b" ⟨⟨0⟩, ⟨0⟩, ⟨600⟩, ⟨600⟩⟩)
          (render_item (.Anker "a" ⟨⟨0⟩, ⟨0⟩, ⟨600⟩, ⟨600⟩⟩) []).2).2 =
        (render_item (.Anker "a" ⟨⟨0⟩, ⟨0⟩, ⟨600⟩, ⟨600⟩⟩) []).2 ∧
      lookupAnker
          (render_item (.Anker "b" ⟨⟨0⟩, ⟨0⟩, ⟨600⟩, ⟨600⟩⟩)
            (render_item (.Anker "a" ⟨⟨0⟩, ⟨0⟩, ⟨600⟩, ⟨600⟩⟩) []).2).2
          ⟨⟨0⟩, ⟨0⟩, ⟨600⟩, ⟨600⟩⟩ = some "a") :=
  ⟨rfl,
    anker_insert_first_writer_wins [] ⟨⟨0⟩, ⟨0⟩, ⟨600⟩, ⟨600⟩⟩ "a" "b" rfl⟩

/-- C6: hit-testing is inclusive on all four bounds — against an index
holding the rectangle `r`, both the motion handler (hand cursor) and the
press handler (navigation emitted) report a hit exactly when
`r.x ≤ px ≤ r.x + r.width` and `r.y ≤ py ≤ r.y + r.height`; in
particular a point exactly on an edge is a hit. -/
theorem hit_test_inclusive_bounds (r : Rect) (u : String) (x y : ℚ) :
    (onMotion [(r, u)] x y = CursorShape.hand1 ↔
      (r.x.to_f64_px ≤ x ∧ x ≤ r.x.to_f64_px + r.width.to_f64_px ∧
        r.y.to_f64_px ≤ y ∧ y ≤ r.y.to_f64_px + r.height.to_f64_px)) ∧
    ((pressLoop [(r, u)] x y).1 ≠ [] ↔
      (r.x.to_f64_px ≤ x ∧ x ≤ r.x.to_f64_px + r.width.to_f64_px ∧
        r.y.to_f64_px ≤ y ∧ y ≤ r.y.to_f64_px + r.height.to_f64_px)) := by
  have hcp : containsPoint r x y = true ↔
      (r.x.to_f64_px ≤ x ∧ x ≤ r.x.to_f64_px + r.width.to_f64_px ∧
        r.y.to_f64_px ≤ y ∧ y ≤ r.y.to_f64_px + r.height.to_f64_px) := by
    simp [containsPoint, Bool.and_eq_true, decide_eq_true_eq, and_assoc]
  refine ⟨?_, ?_⟩
  · rw [onMotion_hand_iff_any, ← hcp]
    simp
  · rw [← hcp]
    by_cases hc : containsPoint r x y = true
    · simp [pressLoop, hc]
    · simp only [Bool.not_eq_true] at hc
      simp [pressLoop, hc]

/-- C7: the press handler emits, for a hit, exactly one navigation
request carrying the url of the first containing rectangle in the
index's iteration order together with exactly one repaint request, the
scan stopping at that first hit; for a miss it emits neither. -/
theorem press_first_hit_navigation (ankers : AnkerMap) (x y : ℚ) :
    pressLoop ankers x y =
      match ankers.find? (fun e => containsPoint e.1 x y) with
      | some e => ([e.2], 1)
      | none => ([], 0) :=
  pressLoop_eq_find x y ankers

/-- C8: rendering is idempotent — a second pass over the same display
list and redraw region, started from the state the first pass left
behind, succeeds, issues the same draw invocations, and leaves the
Anchor Index exactly as the first pass left it. -/
theorem render_idempotent (items : List DisplayCommand) (startY endY : Int)
    (s : RenderState) (out : RenderOutput)
    (h : renderPass items startY endY s = some out) :
    ∃ out2, renderPass items startY endY out.state = some out2 ∧
      out2.draws = out.draws ∧ out2.state.ankers = out.state.ankers := by
  match items with
  | [] => simp [renderPass] at h
  | first :: rest =>
    obtain ⟨out2, hout2⟩ := Option.isSome_iff_exists.mp
      (renderPass_cons_isSome first rest startY endY out.state)
    refine ⟨out2, hout2, ?_, ?_⟩
    · rw [renderPass_some_draws hout2, renderPass_some_draws h]
    · rw [renderPass_some_ankers hout2, renderPass_some_ankers h]
      exact ankerInserts_idem startY endY (first :: rest) s.ankers

/-- C8 witness: re-rendering a background plus one anchor changes
neither the draw trace nor the index. -/
theorem render_idempotent_witness :
    renderPass
        [.SolidColor ⟨255, 255, 255, 255⟩ ⟨⟨0⟩, ⟨0⟩, ⟨48000⟩, ⟨36000⟩⟩,
          .Anker "a" ⟨⟨600⟩, ⟨600⟩, ⟨3000⟩, ⟨1200⟩⟩] 0 600 ⟨[], 520⟩ =
      some ⟨[600],
        [(0, .fill ⟨255, 255, 255, 255⟩ ⟨⟨0⟩, ⟨0⟩, ⟨48000⟩, ⟨36000⟩⟩)],
        ⟨[(⟨⟨600⟩, ⟨600⟩, ⟨3000⟩, ⟨1200⟩⟩, "a")], 600⟩⟩ ∧
    (∃ out2,
      renderPass
          [.SolidColor ⟨255, 255, 255, 255⟩ ⟨⟨0⟩, ⟨0⟩, ⟨48000⟩, ⟨36000⟩⟩,
            .Anker "a" ⟨⟨600⟩, ⟨600⟩, ⟨3000⟩, ⟨1200⟩⟩] 0 600
          (⟨[600],
            [(0, .fill ⟨255, 255, 255, 255⟩ ⟨⟨0⟩, ⟨0⟩, ⟨48000⟩, ⟨36000⟩⟩)],
            ⟨[(⟨⟨600⟩, ⟨600⟩, ⟨3000⟩, ⟨1200⟩⟩, "a")], 600⟩⟩ :
              RenderOutput).state =
        some out2 ∧
      out2.draws =
        [(0, .fill ⟨255, 255, 255, 255⟩ ⟨⟨0⟩, ⟨0⟩, ⟨48000⟩, ⟨36000⟩⟩)] ∧
      out2.state.ankers = [(⟨⟨600⟩, ⟨600⟩, ⟨3000⟩, ⟨1200⟩⟩, "a")]) :=
  ⟨rfl,
    render_idempotent
      [.SolidColor ⟨255, 255, 255, 255⟩ ⟨⟨0⟩, ⟨0⟩, ⟨48000⟩, ⟨36000⟩⟩,
        .Anker "a" ⟨⟨600⟩, ⟨600⟩, ⟨3000⟩, ⟨1200⟩⟩] 0 600 ⟨[], 520⟩
      ⟨[600],
        [(0, .fill ⟨255, 255, 255, 255⟩ ⟨⟨0⟩, ⟨0⟩, ⟨48000⟩, ⟨36000⟩⟩)],
        ⟨[(⟨⟨600⟩, ⟨600⟩, ⟨3000⟩, ⟨1200⟩⟩, "a")], 600⟩⟩ rfl⟩

/-- C9: the Anchor Index grows monotonically — a paint pass only appends
new entries after the existing ones, so no entry is removed and the url
an already-indexed rectangle resolves to is never changed. -/
theorem anker_index_monotone (items : List DisplayCommand)
    (startY endY : Int) (s : RenderState) (out : RenderOutput)
    (h : renderPass items startY endY s = some out) :
    (∃ t, out.state.ankers = s.ankers ++ t) ∧
    (∀ r u, lookupAnker s.ankers r = some u →
      lookupAnker out.state.ankers r = some u) := by
  rw [renderPass_some_ankers h]
  exact ⟨ankerInserts_append startY endY items s.ankers,
    fun r u hu => lookupAnker_ankerInserts_of_some hu⟩

/-- C9 witness: a pass started from an index already holding one entry
keeps that entry (as a prefix) and its url. -/
theorem anker_index_monotone_witness :
    renderPass
        [.SolidColor ⟨255, 255, 255, 255⟩ ⟨⟨0⟩, ⟨0⟩, ⟨48000⟩, ⟨36000⟩⟩,
          .Anker "new" ⟨⟨600⟩, ⟨600⟩, ⟨3000⟩, ⟨1200⟩⟩] 0 600
        ⟨[(⟨⟨0⟩, ⟨0⟩, ⟨600⟩, ⟨600⟩⟩, "old")], 520⟩ =
      some ⟨[600],
        [(0, .fill ⟨255, 255, 255, 255⟩ ⟨⟨0⟩, ⟨0⟩, ⟨48000⟩, ⟨36000⟩⟩)],
        ⟨[(⟨⟨0⟩, ⟨0⟩, ⟨600⟩, ⟨600⟩⟩, "old"),
          (⟨⟨600⟩, ⟨600⟩, ⟨3000⟩, ⟨1200⟩⟩, "new")], 600⟩⟩ ∧
    ((∃ t,
        (⟨[600],
          [(0, .fill ⟨255, 255, 255, 255⟩ ⟨⟨0⟩, ⟨0⟩, ⟨48000⟩, ⟨36000⟩⟩)],
          ⟨[(⟨⟨0⟩, ⟨0⟩, ⟨600⟩, ⟨600⟩⟩, "old"),
            (⟨⟨600⟩, ⟨600⟩, ⟨3000⟩, ⟨1200⟩⟩, "new")], 600⟩⟩ :
            RenderOutput).state.ankers =
          [(⟨⟨0⟩, ⟨0⟩, ⟨600⟩, ⟨600⟩⟩, "old")] ++ t) ∧
      (∀ r u, lookupAnker [(⟨⟨0⟩, ⟨0⟩, ⟨600⟩, ⟨600⟩⟩, "old")] r = some u →
        lookupAnker
          (⟨[600],
            [(0, .fill ⟨255, 255, 255, 255⟩ ⟨⟨0⟩, ⟨0⟩, ⟨48000⟩, ⟨36000⟩⟩)],
            ⟨[(⟨⟨0⟩, ⟨0⟩, ⟨600⟩, ⟨600⟩⟩, "old"),
              (⟨⟨600⟩, ⟨600⟩, ⟨3000⟩, ⟨1200⟩⟩, "new")], 600⟩⟩ :
              RenderOutput).state.ankers r = some u)) :=
  ⟨rfl,
    anker_index_monotone
      [.SolidColor ⟨255, 255, 255, 255⟩ ⟨⟨0⟩, ⟨0⟩, ⟨48000⟩, ⟨36000⟩⟩,
        .Anker "new" ⟨⟨600⟩, ⟨600⟩, ⟨3000⟩, ⟨1200⟩⟩] 0 600
      ⟨[(⟨⟨0⟩, ⟨0⟩, ⟨600⟩, ⟨600⟩⟩, "old")], 520⟩
      ⟨[600],
        [(0, .fill ⟨255, 255, 255, 255⟩ ⟨⟨0⟩, ⟨0⟩, ⟨48000⟩, ⟨36000⟩⟩)],
        ⟨[(⟨⟨0⟩, ⟨0⟩, ⟨600⟩, ⟨600⟩⟩, "old"),
          (⟨⟨600⟩, ⟨600⟩, ⟨3000⟩, ⟨1200⟩⟩, "new")], 600⟩⟩ rfl⟩

/-- C10: against the same Anchor Index and the same point, the motion
handler signals the hand cursor exactly when the press handler would
emit a navigation request — both evaluate the same inclusive containment
predicate over the same entries. -/
theorem motion_press_agree (ankers : AnkerMap) (x y : ℚ) :
    onMotion ankers x y = CursorShape.hand1 ↔
      (pressLoop ankers x y).1 ≠ [] := by
  rw [onMotion_hand_iff_any, pressLoop_eq_find]
  cases hf : ankers.find? (fun e => containsPoint e.1 x y) with
  | none =>
    simp only [hf]
    constructor
    · intro hany
      obtain ⟨e, hmem, he⟩ := List.any_eq_true.mp hany
      have hs : (ankers.find? (fun e => containsPoint e.1 x y)).isSome = true :=
        List.find?_isSome.mpr ⟨e, hmem, he⟩
      rw [hf] at hs
      simp at hs
    · intro hne
      simp at hne
  | some e =>
    simp only [hf]
    constructor
    · intro _
      simp
    · intro _
      have hs : (ankers.find? (fun e => containsPoint e.1 x y)).isSome = true := by
        simp [hf]
      obtain ⟨a, hmem, ha⟩ := List.find?_isSome.mp hs
      exact List.any_eq_true.mpr ⟨a, hmem, ha⟩

end Naglfar
